import Mathlib

-- Verification development for the rxjs-uploader core
-- (projects/rxjs-uploader/src/lib/helpers.ts and models/file-upload.ts).
-- Machine integers do not occur in the modelled code paths; counts and
-- HTTP status codes are modelled as Nat, the file count limit as Int
-- (it may be negative, and any limit not greater than 0 means unlimited).

-- ===================== Basic data model =====================

-- the ProgressState enum from constants/progress-state (documented in the
-- repository README).
inductive ProgressState where
  | NotStarted
  | Idle
  | InProgress
  | Completed
  | Failed
  | Cancelled
deriving DecidableEq, Repr

-- the HttpMethod enum from models/http-method; only Post is used by the
-- modelled code.
inductive HttpMethod where
  | Post
  | Put
  | Get
  | Delete
deriving DecidableEq, Repr

-- IProgress from models/progress.
structure Progress where
  percent : Nat
  state : ProgressState
deriving DecidableEq, Repr

-- the slice of a fetch Response the getters of FileUpload read: only the
-- status field is consulted.  A JS falsy status (0 or undefined) is
-- modelled as status 0.
structure Resp where
  status : Nat
deriving DecidableEq, Repr

-- IUploadRequestOptions from models/upload-request-options.  A missing or
-- null field of the JS object is none; formData and headers are string
-- field maps modelled as association lists.
structure RequestOptions where
  url : Option String := none
  method : Option HttpMethod := none
  formData : Option (List (String × String)) := none
  headers : Option (List (String × String)) := none
deriving DecidableEq, Repr

-- the underlying browser File: the fields the modelled code reads.
structure RawFile where
  name : String
  size : Nat
  mimeType : String
deriving DecidableEq, Repr

-- FileUpload from models/file-upload.  The private rejected field of the
-- class starts out undefined in JS and is set to true by reject and to
-- false by reset, hence Option Bool.
-- The two BehaviorSubjects are reduced to the values they hold
-- (isMarkedForRemoval); the execute subject carries no state.
structure FileUpload where
  file : RawFile
  id : Nat
  rejected : Option Bool := none
  requestOptions : RequestOptions :=
    { url := none, method := some HttpMethod.Post, formData := none, headers := none }
  progress : Progress := { percent := 0, state := ProgressState.NotStarted }
  response : Option Resp := none
  responseCode : Option Nat := none
  responseBody : Option String := none
  uploadHasStarted : Bool := false
  isMarkedForRemoval : Bool := false
deriving DecidableEq, Repr

-- the FileUpload constructor: new FileUpload(file, id).
def mkFileUpload (file : RawFile) (id : Nat) : FileUpload :=
  { file := file, id := id }

-- ===================== FileUpload getters =====================

-- most significant decimal digit of n, written with explicit fuel so that
-- it reduces definitionally (msdAux n n always has enough fuel).
def msdAux : Nat → Nat → Nat
  | 0, n => n
  | fuel + 1, n => if n < 10 then n else msdAux fuel (n / 10)

def msd (n : Nat) : Nat := msdAux n n

-- the test uploadSuccessOrRedirectCode from models/file-upload:
-- the regex matches when the decimal string of the number starts with
-- the character 2 or the character 3, i.e. the most significant digit
-- is 2 or 3.
def statusStartsWith2or3 (n : Nat) : Bool :=
  msd n == 2 || msd n == 3

-- the failed getter of FileUpload, translated branch by branch:
-- a truthy response with a truthy status decides failure from that
-- status alone; otherwise a truthy responseCode decides it; otherwise
-- failure means progress state Failed or a truthy rejected flag.
def FileUpload.failed (f : FileUpload) : Bool :=
  let tail := f.progress.state == ProgressState.Failed || f.rejected.getD false
  let viaCode :=
    match f.responseCode with
    | some c => if c != 0 then !(statusStartsWith2or3 c) else tail
    | none => tail
  match f.response with
  | some r => if r.status != 0 then !(statusStartsWith2or3 r.status) else viaCode
  | none => viaCode

-- the uploaded getter: !this.failed && this.progress.state === Completed.
def FileUpload.uploaded (f : FileUpload) : Bool :=
  !f.failed && f.progress.state == ProgressState.Completed

-- the succeeded getter is exactly uploaded.
def FileUpload.succeeded (f : FileUpload) : Bool :=
  f.uploaded

-- the uploading getter.
def FileUpload.uploading (f : FileUpload) : Bool :=
  !f.uploaded && !f.failed && f.progress.state == ProgressState.InProgress

-- ===================== FileUpload operations =====================

-- reject(errorResponse?): if the argument is truthy it becomes the
-- response; the rejected flag is set to true.
def FileUpload.reject (f : FileUpload) (errorResponse : Option Resp) : FileUpload :=
  { f with
    response := match errorResponse with | some r => some r | none => f.response,
    rejected := some true }

-- the merge of one top level key: a key present on the spread override
-- object wins, otherwise the base value is kept.
def pick (ovr base : Option α) : Option α :=
  match ovr with
  | some v => some v
  | none => base

-- the object spread of two option records, override keys winning,
-- as performed by setRequestOptions.
def mergeOptions (base ovr : RequestOptions) : RequestOptions :=
  { url := pick ovr.url base.url,
    method := pick ovr.method base.method,
    formData := pick ovr.formData base.formData,
    headers := pick ovr.headers base.headers }

-- setRequestOptions(options): spread of the existing options then the
-- argument, per top level key.
def FileUpload.setRequestOptions (f : FileUpload) (options : RequestOptions) : FileUpload :=
  { f with requestOptions := mergeOptions f.requestOptions options }

-- reset(): clears rejection, response data and progress.
def FileUpload.reset (f : FileUpload) : FileUpload :=
  { f with
    rejected := some false,
    response := none,
    responseBody := none,
    responseCode := none,
    progress := { percent := 0, state := ProgressState.NotStarted } }

-- markForRemoval(): the removal subject receives true.
def FileUpload.markForRemoval (f : FileUpload) : FileUpload :=
  { f with isMarkedForRemoval := true }

-- remove(): delegates to markForRemoval.
def FileUpload.remove (f : FileUpload) : FileUpload :=
  f.markForRemoval

-- ===================== Request option resolution =====================

-- field lookup in a formData map: the value at the first occurrence of
-- the key, if any.
def fdLookup : List (String × String) → String → Option String
  | [], _ => none
  | p :: l, k => if p.1 == k then some p.2 else fdLookup l k

-- the object spread of two formData field maps, override keys winning
-- key by key.
def mergeFormData (base ovr : List (String × String)) : List (String × String) :=
  base.filter (fun p => !(ovr.any (fun q => q.1 == p.1))) ++ ovr

-- the options literal built in Uploader executeFileUpload when a request
-- options factory is configured: the factory result spread first, the
-- session level options spread over it, and formData merged key by key
-- with the session level fields winning.  A missing session formData or
-- factory formData spreads as the empty object.
def resolvedFactoryRequestOptions (factoryResult sessionOptions : RequestOptions) :
    RequestOptions :=
  { url := pick sessionOptions.url factoryResult.url,
    method := pick sessionOptions.method factoryResult.method,
    headers := pick sessionOptions.headers factoryResult.headers,
    formData := some (mergeFormData (factoryResult.formData.getD [])
      (sessionOptions.formData.getD [])) }

-- ===================== Policy filter =====================

-- the error classes from models/uploader-error that the screening loop
-- can emit.
inductive UploadErrorKind where
  | disallowedContentType
  | fileSizeLimitExceeded
deriving DecidableEq, Repr

-- BYTES_PER_MB from helpers.ts.
def BYTES_PER_MB : Nat := 1000 * 1000

-- the session configuration read by the screening loop.  A file size
-- limit that was never set is none; 0 is falsy in JS and also disables
-- the check.
structure PolicyConfig where
  fileSizeLimitMb : Option Nat
  allowedContentTypes : List String
deriving DecidableEq, Repr

-- the size admission test of Uploader createFileUploads: a falsy limit
-- admits everything, otherwise the size must be strictly below the limit
-- in bytes.
def underSizeLimit (cfg : PolicyConfig) (f : RawFile) : Bool :=
  match cfg.fileSizeLimitMb with
  | none => true
  | some l => l == 0 || f.size < l * BYTES_PER_MB

-- the content type admission test: a wildcard entry admits everything,
-- otherwise the declared mime type must occur in the allowed list.
def typeAllowed (cfg : PolicyConfig) (f : RawFile) : Bool :=
  cfg.allowedContentTypes.any (fun ct => ct == "*")
    || cfg.allowedContentTypes.any (fun ct => ct == f.mimeType)

-- the screening loop of Uploader createFileUploads: size checked first,
-- then content type; a rejected file contributes an error onto the error
-- stream and is dropped; the loop continues with the remaining files.
def screenFiles (cfg : PolicyConfig) (files : List RawFile) :
    List RawFile × List UploadErrorKind :=
  files.foldl
    (fun acc f =>
      if underSizeLimit cfg f then
        if typeAllowed cfg f then (acc.1 ++ [f], acc.2)
        else (acc.1, acc.2 ++ [UploadErrorKind.disallowedContentType])
      else (acc.1, acc.2 ++ [UploadErrorKind.fileSizeLimitExceeded]))
    ([], [])

-- the combined admission test of the screening loop.
def screenOk (cfg : PolicyConfig) (f : RawFile) : Bool :=
  underSizeLimit cfg f && typeAllowed cfg f

-- the error the screening loop emits for one file, if any: the size
-- check is applied first, the content type check second.
def errOf (cfg : PolicyConfig) (f : RawFile) : Option UploadErrorKind :=
  if underSizeLimit cfg f then
    if typeAllowed cfg f then none else some UploadErrorKind.disallowedContentType
  else some UploadErrorKind.fileSizeLimitExceeded

-- ===================== De-duplication =====================

-- lodash uniq keeps the first occurrence of each element, comparing JS
-- objects by identity.  uniqFirstAux seen l drops elements of l that
-- occur in seen and keeps the first occurrence of the rest.
def uniqFirstAux [DecidableEq α] (seen : List α) : List α → List α
  | [] => []
  | a :: l => if a ∈ seen then uniqFirstAux seen l else a :: uniqFirstAux (a :: seen) l

def uniqFirst [DecidableEq α] (l : List α) : List α :=
  uniqFirstAux [] l

-- ===================== Accumulator =====================

-- the projection of a FileUpload the accumulator reads: its object
-- identity (ref) and its id (the Symbol).  The mutable mark flag lives
-- in the shared heap state below, because marking one occurrence of an
-- object marks every list that holds it.
structure Ent where
  ref : Nat
  id : Nat
deriving DecidableEq, Repr

-- keeping the first entity of each id, as the merged batch of the spec
-- is de-duplicated by id.
def uniqByIdAux (seen : List Nat) : List Ent → List Ent
  | [] => []
  | e :: l => if e.id ∈ seen then uniqByIdAux seen l else e :: uniqByIdAux (e.id :: seen) l

def uniqById (l : List Ent) : List Ent :=
  uniqByIdAux [] l

-- the mutable session state the scan step touches: the set of object
-- refs whose removal subject holds true, the ids present in the
-- fileUploadSubjectsMap, and the list of arguments passed to the
-- onFileCountLimitExceeded hook so far.
structure AccState where
  marked : List Nat
  registry : List Nat
  hookArgs : List Int
deriving DecidableEq, Repr

-- the filter applied to both the previous collection and the incoming
-- batch: keep the entities not marked for removal.
def kept (marked : List Nat) (l : List Ent) : List Ent :=
  l.filter (fun e => decide (e.ref ∉ marked))

-- the newly added entities of a batch: those of the kept batch whose id
-- does not occur in the kept previous collection.
def newlyAdded (prevKept currKept : List Ent) : List Ent :=
  currKept.filter (fun c => !(prevKept.any (fun p => p.id == c.id)))

-- Uploader exceedsFileCountLimit: a limit greater than 0 is exceeded by
-- a collection strictly longer than it; any other limit means unlimited.
def exceedsFileCountLimit (limit : Int) (l : List Ent) : Bool :=
  decide (0 < limit) && decide (limit < (l.length : Int))

-- one application of the scan of Uploader concatFileUploadArrays.
-- limit is the value the dynamic file count limit evaluates to during
-- this step; hasHook records whether an onFileCountLimitExceeded hook is
-- configured.  An empty (or null) batch resets the collection.  Otherwise
-- the registry entry of every marked entity of the batch is deleted, the
-- previous collection and the batch are filtered to their kept entities,
-- their concatenation is de-duplicated, and if either the kept batch or
-- the candidate exceeds the limit every newly added entity is marked, the
-- hook fires once, and the previous kept collection is returned.
def concatStep (limit : Int) (hasHook : Bool) (st : AccState)
    (prevAcc curr : List Ent) : List Ent × AccState :=
  if curr.isEmpty then ([], st)
  else
    let registry1 := curr.foldl
      (fun reg e => if e.ref ∈ st.marked then reg.filter (fun i => i != e.id) else reg)
      st.registry
    let previousAccFileUploads := kept st.marked prevAcc
    let currentFileUploads := kept st.marked curr
    let accFileUploads := uniqFirst (previousAccFileUploads ++ currentFileUploads)
    let newFileUploads := newlyAdded previousAccFileUploads currentFileUploads
    if exceedsFileCountLimit limit currentFileUploads
        || exceedsFileCountLimit limit accFileUploads then
      (previousAccFileUploads,
        { marked := st.marked ++ newFileUploads.map (fun e => e.ref),
          registry := registry1,
          hookArgs := if hasHook then st.hookArgs ++ [limit] else st.hookArgs })
    else
      (accFileUploads, { st with registry := registry1 })

-- the scan itself: a strict left fold of concatStep over the arriving
-- batches, seeded with the empty collection.
def concatScan (limit : Int) (hasHook : Bool) :
    List Ent × AccState → List (List Ent) → List Ent × AccState
  | acc, [] => acc
  | (coll, st), b :: bs => concatScan limit hasHook (concatStep limit hasHook st coll b) bs

-- ===================== Source registration =====================

-- the listener bookkeeping of Uploader registerInput and
-- registerDropZone.  Elements are identified by a Nat ref.  Every call
-- of registerInput subscribes fromEvent(element, change) once more;
-- registerDropZone attaches its four DOM listeners only when the element
-- is not yet a key of the dropZoneEventListenersMap.
structure RegistrationState where
  fileInputElements : List Nat
  inputChangeSubscriptions : List Nat
  dropZoneElements : List Nat
  dropZoneMapKeys : List Nat
  dropZoneListeners : List (Nat × String)
deriving DecidableEq, Repr

def initRegistrationState : RegistrationState :=
  { fileInputElements := [], inputChangeSubscriptions := [],
    dropZoneElements := [], dropZoneMapKeys := [], dropZoneListeners := [] }

def dropZoneEventNames : List String :=
  ["dragenter", "dragover", "dragleave", "drop"]

-- Uploader registerInput: the element list is de-duplicated, but
-- fromEvent(inputElement, change).subscribe runs on every call,
-- adding one change subscription each time.
def registerInput (st : RegistrationState) (el : Nat) : RegistrationState :=
  { st with
    fileInputElements := uniqFirst (st.fileInputElements ++ [el]),
    inputChangeSubscriptions := st.inputChangeSubscriptions ++ [el] }

-- Uploader registerDropZone: the element list is de-duplicated and the
-- four DOM listeners are attached only on the first registration of the
-- element.
def registerDropZone (st : RegistrationState) (el : Nat) : RegistrationState :=
  if el ∈ st.dropZoneMapKeys then
    { st with dropZoneElements := uniqFirst (st.dropZoneElements ++ [el]) }
  else
    { st with
      dropZoneElements := uniqFirst (st.dropZoneElements ++ [el]),
      dropZoneMapKeys := st.dropZoneMapKeys ++ [el],
      dropZoneListeners := st.dropZoneListeners
        ++ dropZoneEventNames.map (fun n => (el, n)) }

-- the number of batch emissions one change event on element el produces:
-- one per change subscription on el.
def changeEmissionCount (st : RegistrationState) (el : Nat) : Nat :=
  st.inputChangeSubscriptions.count el

-- ===================== Claim side definitions =====================

-- Modelled from the spec: the response status the failed claim speaks
-- about, the status of the recorded response if any, else the recorded
-- response code.
def recordedStatus (f : FileUpload) : Option Nat :=
  match f.response with
  | some r => some r.status
  | none => f.responseCode

-- Modelled from the spec: the claim predicate that the recorded response
-- status lies outside the 2xx and 3xx range.
def statusOutsideSuccessRange (f : FileUpload) : Bool :=
  match recordedStatus f with
  | some s => !(decide (200 ≤ s ∧ s ≤ 399))
  | none => false

-- ===================== Concrete instances =====================

def emptyAccState : AccState :=
  { marked := [], registry := [], hookArgs := [] }

-- a just created entity carrying a plain text file.
def sampleUpload : FileUpload :=
  mkFileUpload { name := "a.txt", size := 10, mimeType := "text/plain" } 0

-- an entity whose transport succeeded with status 200 and that is then
-- rejected explicitly.
def rejectedAfterSuccess : FileUpload :=
  FileUpload.reject
    { sampleUpload with
      progress := { percent := 100, state := ProgressState.Completed },
      responseCode := some 200 }
    (some { status := 200 })

-- an entity whose transport completed with status 201.
def completed201 : FileUpload :=
  { sampleUpload with
    progress := { percent := 100, state := ProgressState.Completed },
    response := some { status := 201 },
    responseCode := some 201,
    responseBody := some "ok" }

-- four unmarked entities accumulated earlier, for the empty batch
-- counterexample.
def fourEnts : List Ent :=
  [{ ref := 0, id := 0 }, { ref := 1, id := 1 }, { ref := 2, id := 2 }, { ref := 3, id := 3 }]

-- batches for the sequential versus merged counterexample.
def batch0 : List Ent := [{ ref := 1, id := 1 }, { ref := 2, id := 2 }]
def batch1 : List Ent := [{ ref := 3, id := 3 }, { ref := 4, id := 4 }]
def batch2 : List Ent := [{ ref := 5, id := 5 }]

-- a marked entity and a distinct entity object that carries the same id.
def markedEnt : Ent := { ref := 0, id := 5 }
def sameIdEnt : Ent := { ref := 1, id := 5 }

-- a state in which the object ref 0 is marked for removal.
def accStateMarked5 : AccState := { marked := [0], registry := [], hookArgs := [] }

-- a batch of three fresh entities, for the witness of the rejection
-- theorem with a file count limit of 2.
def batch3 : List Ent :=
  [{ ref := 6, id := 6 }, { ref := 7, id := 7 }, { ref := 8, id := 8 }]

-- ===================== Helper lemmas =====================

-- on the range of genuine HTTP status codes the regex test coincides
-- with membership in the 2xx and 3xx range.
set_option maxRecDepth 4000 in
theorem statusStartsWith2or3_range :
    ∀ s, s < 600 → 100 ≤ s → (statusStartsWith2or3 s = true ↔ 200 ≤ s ∧ s ≤ 399) := by
  decide

-- ===================== C3 =====================

/-- C3, corrected.  The succeeded getter holds exactly when the progress
state is Completed and the entity is not failed.  The failed getter gives
a recorded response status precedence over everything else: while a
response with a nonzero status in the genuine HTTP range 100 to 599 is
recorded, failed is false exactly when that status lies in the 2xx or 3xx
range, irrespective of rejection and progress state; otherwise (no
response, or a response with falsy status) a nonzero responseCode in that
range decides failure the same way; only when neither a response status
nor a response code is recorded does failed reduce to progress state
Failed or explicit rejection. -/
theorem fileUpload_succeeded_failed_characterization (f : FileUpload) :
    (f.succeeded = true ↔ f.progress.state = ProgressState.Completed ∧ f.failed = false)
    ∧ (∀ r : Resp, f.response = some r → 100 ≤ r.status → r.status < 600 →
        (f.failed = false ↔ 200 ≤ r.status ∧ r.status ≤ 399))
    ∧ (∀ c : Nat, (f.response = none ∨ f.response = some { status := 0 }) →
        f.responseCode = some c → 100 ≤ c → c < 600 →
        (f.failed = false ↔ 200 ≤ c ∧ c ≤ 399))
    ∧ (f.response = none → f.responseCode = none →
        (f.failed = true ↔
          f.progress.state = ProgressState.Failed ∨ f.rejected.getD false = true)) := by
  refine ⟨?_, ?_, ?_, ?_⟩
  · simp only [FileUpload.succeeded, FileUpload.uploaded, Bool.and_eq_true,
      Bool.not_eq_true', beq_iff_eq]
    exact and_comm
  · intro r hr h1 h2
    have hne : (r.status != 0) = true := by
      simp only [bne_iff_ne, ne_eq]
      omega
    simp only [FileUpload.failed, hr, hne, if_true, Bool.not_eq_false']
    exact statusStartsWith2or3_range r.status h2 h1
  · intro c hresp hcode h1 h2
    have hne : (c != 0) = true := by
      simp only [bne_iff_ne, ne_eq]
      omega
    rcases hresp with h | h
    · simp only [FileUpload.failed, h, hcode, hne, if_true, Bool.not_eq_false']
      exact statusStartsWith2or3_range c h2 h1
    · simp only [FileUpload.failed, h, hcode, hne, bne_self_eq_false,
        Bool.false_eq_true, if_false, if_true, Bool.not_eq_false']
      exact statusStartsWith2or3_range c h2 h1
  · intro h1 h2
    simp only [FileUpload.failed, h1, h2, Bool.or_eq_true, beq_iff_eq]

/-- C3 witness: the entity whose transport completed with status 201 is
not failed, has succeeded, and carries response code 201; an entity that
recorded no response but response code 204 is not failed either, decided
by the response code tier. -/
theorem fileUpload_succeeded_failed_characterization_witness :
    completed201.failed = false
    ∧ completed201.succeeded = true
    ∧ completed201.responseCode = some 201
    ∧ ({ sampleUpload with responseCode := some 204 } : FileUpload).response = none
    ∧ ({ sampleUpload with responseCode := some 204 } : FileUpload).failed = false := by
  refine ⟨?_, by decide, rfl, rfl, ?_⟩
  · exact ((fileUpload_succeeded_failed_characterization completed201).2.1
      { status := 201 } rfl (by decide) (by decide)).mpr (by decide)
  · exact ((fileUpload_succeeded_failed_characterization
      { sampleUpload with responseCode := some 204 }).2.2.1
      204 (Or.inl rfl) rfl (by decide) (by decide)).mpr (by decide)

/-- C3 counterexample: an entity that recorded a successful response with
status 200 and was then explicitly rejected is rejected but not failed,
so failed is not equivalent to the disjunction the claim states. -/
theorem fileUpload_failed_claim_cex :
    rejectedAfterSuccess.rejected = some true
    ∧ rejectedAfterSuccess.failed = false
    ∧ ¬ (rejectedAfterSuccess.failed = true ↔
          (rejectedAfterSuccess.rejected.getD false = true
            ∨ rejectedAfterSuccess.progress.state = ProgressState.Failed
            ∨ statusOutsideSuccessRange rejectedAfterSuccess = true)) := by
  decide

-- ===================== C6 =====================

/-- C6, confirmed.  reset returns the observable progress, response and
rejection state of any entity to the just created state: percent 0,
progress state NotStarted, no response, no response code, no response
body, and not rejected. -/
theorem fileUpload_reset_restores_initial_state (f : FileUpload) :
    f.reset.progress.percent = 0
    ∧ f.reset.progress.state = ProgressState.NotStarted
    ∧ f.reset.progress = (mkFileUpload f.file f.id).progress
    ∧ f.reset.response = none
    ∧ f.reset.responseCode = none
    ∧ f.reset.responseBody = none
    ∧ f.reset.rejected.getD false = false :=
  ⟨rfl, rfl, rfl, rfl, rfl, rfl, rfl⟩

-- ===================== C10 =====================

/-- C10, confirmed.  reset leaves uploadHasStarted, requestOptions, id,
the underlying file and isMarkedForRemoval unchanged; in particular an
entity whose upload already started still reports uploadHasStarted true
after reset. -/
theorem fileUpload_reset_frame (f : FileUpload) :
    f.reset.uploadHasStarted = f.uploadHasStarted
    ∧ f.reset.requestOptions = f.requestOptions
    ∧ f.reset.id = f.id
    ∧ f.reset.file = f.file
    ∧ f.reset.isMarkedForRemoval = f.isMarkedForRemoval
    ∧ ({ f with uploadHasStarted := true } : FileUpload).reset.uploadHasStarted = true :=
  ⟨rfl, rfl, rfl, rfl, rfl, rfl⟩

-- ===================== C9 =====================

/-- C9, confirmed.  Feeding the accumulator scan step any empty batch
returns the empty collection, discarding every previously accumulated
entity, whatever the limit, hook and state. -/
theorem accumulator_empty_batch_resets (limit : Int) (hasHook : Bool) (st : AccState)
    (prevAcc : List Ent) :
    concatStep limit hasHook st prevAcc [] = ([], st) :=
  rfl

-- ===================== C8 =====================

/-- C8, code bug.  Registering the same file input element twice leaves a
de-duplicated element list but adds a second change subscription, so one
change event produces two batch emissions instead of one; drop zone
targets, by contrast, are registered idempotently. -/
theorem registration_double_input_duplicates_listener :
    changeEmissionCount (registerInput (registerInput initRegistrationState 7) 7) 7 = 2
    ∧ changeEmissionCount (registerInput initRegistrationState 7) 7 = 1
    ∧ (registerInput (registerInput initRegistrationState 7) 7).fileInputElements
        = (registerInput initRegistrationState 7).fileInputElements
    ∧ (registerDropZone (registerDropZone initRegistrationState 9) 9).dropZoneListeners
        = (registerDropZone initRegistrationState 9).dropZoneListeners
    ∧ (registerDropZone (registerDropZone initRegistrationState 9) 9).dropZoneMapKeys
        = (registerDropZone initRegistrationState 9).dropZoneMapKeys := by
  decide

-- ===================== uniqFirst lemmas =====================

theorem mem_uniqFirstAux [DecidableEq α] {x : α} :
    ∀ (l seen : List α), x ∈ uniqFirstAux seen l ↔ x ∈ l ∧ x ∉ seen := by
  intro l
  induction l with
  | nil => intro seen; simp [uniqFirstAux]
  | cons a l ih =>
    intro seen
    by_cases h : a ∈ seen
    · rw [uniqFirstAux, if_pos h, ih]
      constructor
      · exact fun hx => ⟨List.mem_cons_of_mem a hx.1, hx.2⟩
      · rintro ⟨h1, h2⟩
        rcases List.mem_cons.mp h1 with rfl | h1
        · exact absurd h h2
        · exact ⟨h1, h2⟩
    · rw [uniqFirstAux, if_neg h]
      constructor
      · intro hx
        rcases List.mem_cons.mp hx with rfl | hx
        · exact ⟨List.mem_cons_self x l, h⟩
        · obtain ⟨h1, h2⟩ := (ih (a :: seen)).mp hx
          exact ⟨List.mem_cons_of_mem a h1, fun hs => h2 (List.mem_cons_of_mem a hs)⟩
      · rintro ⟨h1, h2⟩
        rcases List.mem_cons.mp h1 with rfl | h1
        · exact List.mem_cons_self x _
        · by_cases hxa : x = a
          · subst hxa; exact List.mem_cons_self x _
          · refine List.mem_cons_of_mem a ((ih (a :: seen)).mpr ⟨h1, fun hs => ?_⟩)
            rcases List.mem_cons.mp hs with h3 | h3
            · exact hxa h3
            · exact h2 h3

theorem uniqFirstAux_congr [DecidableEq α] :
    ∀ (l : List α) {s t : List α}, (∀ x ∈ l, (x ∈ s ↔ x ∈ t)) →
      uniqFirstAux s l = uniqFirstAux t l := by
  intro l
  induction l with
  | nil => intro s t _; rfl
  | cons a l ih =>
    intro s t hst
    have ha := hst a (List.mem_cons_self a l)
    by_cases h : a ∈ s
    · rw [uniqFirstAux, if_pos h, uniqFirstAux, if_pos (ha.mp h)]
      exact ih fun x hx => hst x (List.mem_cons_of_mem a hx)
    · rw [uniqFirstAux, if_neg h, uniqFirstAux, if_neg (fun ht => h (ha.mpr ht))]
      congr 1
      refine ih fun x hx => ?_
      simp only [List.mem_cons]
      exact or_congr Iff.rfl (hst x (List.mem_cons_of_mem a hx))

theorem uniqFirstAux_append [DecidableEq α] :
    ∀ (X s Y : List α),
      uniqFirstAux s (X ++ Y) = uniqFirstAux s X ++ uniqFirstAux (X ++ s) Y := by
  intro X
  induction X with
  | nil => intro s Y; rfl
  | cons a X ih =>
    intro s Y
    by_cases h : a ∈ s
    · rw [List.cons_append, uniqFirstAux, if_pos h, uniqFirstAux, if_pos h, ih]
      congr 1
      refine uniqFirstAux_congr Y fun x _ => ?_
      simp only [List.cons_append, List.mem_append, List.mem_cons]
      constructor
      · intro h1; aesop
      · intro h1; aesop
    · rw [List.cons_append, uniqFirstAux, if_neg h, uniqFirstAux, if_neg h, ih,
        List.cons_append]
      congr 2
      refine uniqFirstAux_congr Y fun x _ => ?_
      simp only [List.cons_append, List.mem_append, List.mem_cons]
      constructor
      · intro h1; aesop
      · intro h1; aesop

theorem uniqFirstAux_all_seen [DecidableEq α] :
    ∀ (l s : List α), (∀ x ∈ l, x ∈ s) → uniqFirstAux s l = [] := by
  intro l
  induction l with
  | nil => intro s _; rfl
  | cons a l ih =>
    intro s h
    rw [uniqFirstAux, if_pos (h a (List.mem_cons_self a l))]
    exact ih s fun x hx => h x (List.mem_cons_of_mem a hx)

theorem uniqFirstAux_double [DecidableEq α] :
    ∀ (l s t : List α), uniqFirstAux s (uniqFirstAux t l) = uniqFirstAux (s ++ t) l := by
  intro l
  induction l with
  | nil => intro s t; rfl
  | cons a l ih =>
    intro s t
    by_cases ht : a ∈ t
    · rw [uniqFirstAux, if_pos ht, uniqFirstAux, if_pos (List.mem_append.mpr (Or.inr ht)), ih]
    · rw [uniqFirstAux, if_neg ht]
      by_cases hs : a ∈ s
      · rw [uniqFirstAux, if_pos hs, uniqFirstAux,
          if_pos (List.mem_append.mpr (Or.inl hs)), ih]
        refine uniqFirstAux_congr l fun x _ => ?_
        simp only [List.mem_append, List.mem_cons]
        constructor
        · intro h1; aesop
        · intro h1; aesop
      · rw [uniqFirstAux, if_neg hs, uniqFirstAux,
          if_neg (fun hm => (List.mem_append.mp hm).elim hs ht), ih]
        congr 1
        refine uniqFirstAux_congr l fun x _ => ?_
        simp only [List.mem_append, List.mem_cons]
        constructor
        · intro h1; aesop
        · intro h1; aesop

theorem uniqFirstAux_filter [DecidableEq α] (p : α → Bool) :
    ∀ (l s : List α), uniqFirstAux s (l.filter p) = (uniqFirstAux s l).filter p := by
  intro l
  induction l with
  | nil => intro s; rfl
  | cons a l ih =>
    intro s
    by_cases hp : p a
    · by_cases h : a ∈ s
      · rw [List.filter_cons_of_pos hp, uniqFirstAux, if_pos h, uniqFirstAux, if_pos h, ih]
      · rw [List.filter_cons_of_pos hp, uniqFirstAux, if_neg h, uniqFirstAux, if_neg h,
          List.filter_cons_of_pos hp, ih]
    · have hp2 : ¬ p a = true := hp
      by_cases h : a ∈ s
      · rw [List.filter_cons_of_neg hp2, uniqFirstAux, if_pos h, ih]
      · rw [List.filter_cons_of_neg hp2, uniqFirstAux, if_neg h,
          List.filter_cons_of_neg hp2]
        calc uniqFirstAux s (l.filter p)
            = uniqFirstAux (a :: s) (l.filter p) := by
              refine uniqFirstAux_congr _ fun x hx => ?_
              have hxa : x ≠ a := by
                intro he
                subst he
                exact hp2 (List.of_mem_filter hx)
              simp only [List.mem_cons]
              exact ⟨fun h1 => Or.inr h1, fun h1 => h1.resolve_left hxa⟩
          _ = (uniqFirstAux (a :: s) l).filter p := ih (a :: s)

theorem mem_uniqFirst [DecidableEq α] {x : α} (l : List α) : x ∈ uniqFirst l ↔ x ∈ l := by
  rw [uniqFirst, mem_uniqFirstAux]
  simp

theorem uniqFirst_idem [DecidableEq α] (l : List α) : uniqFirst (uniqFirst l) = uniqFirst l := by
  rw [uniqFirst, uniqFirst, uniqFirstAux_double]
  rfl

theorem uniqFirst_append_left [DecidableEq α] (X Y : List α) :
    uniqFirst (uniqFirst X ++ Y) = uniqFirst (X ++ Y) := by
  simp only [uniqFirst]
  rw [uniqFirstAux_append, uniqFirstAux_append, uniqFirstAux_double]
  congr 1
  refine uniqFirstAux_congr Y fun x _ => ?_
  simp [mem_uniqFirstAux]

theorem uniqFirst_append_right [DecidableEq α] (X Y : List α) :
    uniqFirst (X ++ uniqFirst Y) = uniqFirst (X ++ Y) := by
  simp only [uniqFirst]
  rw [uniqFirstAux_append, uniqFirstAux_append, uniqFirstAux_double]
  congr 1
  refine uniqFirstAux_congr Y fun x _ => ?_
  simp

theorem uniqFirst_self_append [DecidableEq α] (l : List α) :
    uniqFirst (l ++ l) = uniqFirst l := by
  rw [uniqFirst, uniqFirstAux_append,
    uniqFirstAux_all_seen l (l ++ []) (fun x hx => List.mem_append.mpr (Or.inl hx)),
    List.append_nil]
  rfl

theorem uniqFirst_filter [DecidableEq α] (p : α → Bool) (l : List α) :
    uniqFirst (l.filter p) = (uniqFirst l).filter p :=
  uniqFirstAux_filter p l []

theorem length_uniqFirstAux_le [DecidableEq α] :
    ∀ (l s : List α), (uniqFirstAux s l).length ≤ l.length := by
  intro l
  induction l with
  | nil => intro s; exact Nat.le_refl 0
  | cons a l ih =>
    intro s
    by_cases h : a ∈ s
    · rw [uniqFirstAux, if_pos h]
      exact Nat.le_succ_of_le (ih s)
    · rw [uniqFirstAux, if_neg h, List.length_cons]
      exact Nat.succ_le_succ (ih (a :: s))

theorem length_uniqFirst_le [DecidableEq α] (l : List α) :
    (uniqFirst l).length ≤ l.length :=
  length_uniqFirstAux_le l []

-- ===================== uniqById lemmas =====================

theorem uniqByIdAux_eq_uniqFirstAux :
    ∀ (l : List Ent) (seenIds : List Nat) (seenEnts : List Ent),
      (∀ n, n ∈ seenIds ↔ ∃ e, e ∈ seenEnts ∧ e.id = n) →
      (∀ e1 e2 : Ent, (e1 ∈ seenEnts ∨ e1 ∈ l) → (e2 ∈ seenEnts ∨ e2 ∈ l) →
        e1.id = e2.id → e1 = e2) →
      uniqByIdAux seenIds l = uniqFirstAux seenEnts l := by
  intro l
  induction l with
  | nil => intro _ _ _ _; rfl
  | cons a l ih =>
    intro seenIds seenEnts hiff hinj
    have hsub : ∀ e1 e2 : Ent, (e1 ∈ seenEnts ∨ e1 ∈ l) → (e2 ∈ seenEnts ∨ e2 ∈ l) →
        e1.id = e2.id → e1 = e2 := by
      intro e1 e2 h1 h2
      exact hinj e1 e2 (h1.imp id (List.mem_cons_of_mem a)) (h2.imp id (List.mem_cons_of_mem a))
    by_cases h : a.id ∈ seenIds
    · have ha : a ∈ seenEnts := by
        obtain ⟨e, he, heq⟩ := (hiff a.id).mp h
        have heqa := hinj e a (Or.inl he) (Or.inr (List.mem_cons_self a l)) heq
        rwa [← heqa]
      rw [uniqByIdAux, if_pos h, uniqFirstAux, if_pos ha]
      exact ih seenIds seenEnts hiff hsub
    · have ha : a ∉ seenEnts := fun hmem => h ((hiff a.id).mpr ⟨a, hmem, rfl⟩)
      rw [uniqByIdAux, if_neg h, uniqFirstAux, if_neg ha]
      congr 1
      refine ih (a.id :: seenIds) (a :: seenEnts) (fun n => ?_) ?_
      · simp only [List.mem_cons]
        constructor
        · rintro (rfl | hn)
          · exact ⟨a, Or.inl rfl, rfl⟩
          · obtain ⟨e, he, heq⟩ := (hiff n).mp hn
            exact ⟨e, Or.inr he, heq⟩
        · rintro ⟨e, (rfl | he), heq⟩
          · exact Or.inl heq.symm
          · exact Or.inr ((hiff n).mpr ⟨e, he, heq⟩)
      · intro e1 e2 h1 h2
        refine hinj e1 e2 ?_ ?_
        · rcases h1 with h1 | h1
          · rcases List.mem_cons.mp h1 with rfl | h1
            · exact Or.inr (List.mem_cons_self _ _)
            · exact Or.inl h1
          · exact Or.inr (List.mem_cons_of_mem a h1)
        · rcases h2 with h2 | h2
          · rcases List.mem_cons.mp h2 with rfl | h2
            · exact Or.inr (List.mem_cons_self _ _)
            · exact Or.inl h2
          · exact Or.inr (List.mem_cons_of_mem a h2)

theorem uniqById_eq_uniqFirst (l : List Ent)
    (hinj : ∀ e1 e2 : Ent, e1 ∈ l → e2 ∈ l → e1.id = e2.id → e1 = e2) :
    uniqById l = uniqFirst l := by
  refine uniqByIdAux_eq_uniqFirstAux l [] [] (fun n => by simp) ?_
  intro e1 e2 h1 h2
  exact hinj e1 e2 (h1.resolve_left (List.not_mem_nil e1)) (h2.resolve_left (List.not_mem_nil e2))

-- ===================== kept and limit lemmas =====================

theorem kept_append (m : List Nat) (l1 l2 : List Ent) :
    kept m (l1 ++ l2) = kept m l1 ++ kept m l2 := by
  simp [kept]

theorem kept_kept (m : List Nat) (l : List Ent) : kept m (kept m l) = kept m l := by
  refine List.filter_eq_self.mpr fun e he => ?_
  exact (List.mem_filter.mp he).2

theorem kept_uniqFirst (m : List Nat) (l : List Ent) :
    kept m (uniqFirst l) = uniqFirst (kept m l) :=
  (uniqFirst_filter _ l).symm

theorem mem_kept {m : List Nat} {l : List Ent} {e : Ent} :
    e ∈ kept m l ↔ e ∈ l ∧ e.ref ∉ m := by
  rw [kept, List.mem_filter]
  simp

theorem length_kept_le (m : List Nat) (l : List Ent) : (kept m l).length ≤ l.length :=
  List.length_filter_le _ l

theorem exceeds_of_length_le {limit : Int} {l1 l2 : List Ent} (h : l1.length ≤ l2.length)
    (he : exceedsFileCountLimit limit l1 = true) : exceedsFileCountLimit limit l2 = true := by
  simp only [exceedsFileCountLimit, Bool.and_eq_true, decide_eq_true_eq] at he ⊢
  omega

-- ===================== concatStep helpers =====================

theorem concatStep_output_kept (limit : Int) (hasHook : Bool) (st : AccState)
    (prevAcc curr : List Ent) :
    ∀ e ∈ (concatStep limit hasHook st prevAcc curr).1, e.ref ∉ st.marked := by
  intro e he
  simp only [concatStep] at he
  split at he
  · exact absurd he (List.not_mem_nil e)
  · split at he
    · exact (mem_kept.mp he).2
    · rw [mem_uniqFirst, List.mem_append] at he
      rcases he with he | he
      · exact (mem_kept.mp he).2
      · exact (mem_kept.mp he).2

theorem concatStep_marked_monotone (limit : Int) (hasHook : Bool) (st : AccState)
    (prevAcc curr : List Ent) :
    st.marked ⊆ (concatStep limit hasHook st prevAcc curr).2.marked := by
  simp only [concatStep]
  split
  · exact fun x hx => hx
  · split
    · exact fun x hx => List.mem_append.mpr (Or.inl hx)
    · exact fun x hx => hx

-- ===================== C5 =====================

/-- C5, corrected.  markForRemoval is idempotent (two applications equal
one, and the flag reads true afterwards) and remove is an exact alias.
Once an entity object is marked, the accumulator never outputs that
object again: every output entity is unmarked, and the set of marked refs
only grows from step to step.  Exclusion is by object identity, not by
id. -/
theorem markForRemoval_idempotent_and_object_terminal :
    (∀ f : FileUpload,
        f.markForRemoval.markForRemoval = f.markForRemoval
        ∧ f.markForRemoval.isMarkedForRemoval = true
        ∧ f.remove = f.markForRemoval)
    ∧ (∀ (limit : Int) (hasHook : Bool) (st : AccState) (prevAcc curr : List Ent) (e : Ent),
        e.ref ∈ st.marked →
          e ∉ (concatStep limit hasHook st prevAcc curr).1
          ∧ st.marked ⊆ (concatStep limit hasHook st prevAcc curr).2.marked) := by
  constructor
  · intro f
    exact ⟨rfl, rfl, rfl⟩
  · intro limit hasHook st prevAcc curr e he
    refine ⟨fun hmem => ?_, concatStep_marked_monotone limit hasHook st prevAcc curr⟩
    exact concatStep_output_kept limit hasHook st prevAcc curr e hmem he

/-- C5 witness: with ref 0 marked, the batch that carries the marked
object itself does not bring it back into the collection. -/
theorem markForRemoval_idempotent_and_object_terminal_witness :
    markedEnt.ref ∈ accStateMarked5.marked
    ∧ markedEnt ∉ (concatStep 0 false accStateMarked5 [] [markedEnt]).1 :=
  ⟨by decide,
    (markForRemoval_idempotent_and_object_terminal.2 0 false accStateMarked5 [] [markedEnt]
      markedEnt (by decide)).1⟩

/-- C5 counterexample: the object ref 0 with id 5 is marked for removal,
yet a later raw batch holding a distinct object with the same id 5 puts
an entity with that id back into the accumulated collection, against the
claim that the entity never reappears even if a later batch contains an
entity with the same id. -/
theorem marked_entity_same_id_reappears_cex :
    markedEnt.ref ∈ accStateMarked5.marked
    ∧ sameIdEnt.id = markedEnt.id
    ∧ sameIdEnt ∈ (concatStep 0 false accStateMarked5 [] [sameIdEnt]).1
    ∧ (concatStep 0 false accStateMarked5 [] [sameIdEnt]).1 = [sameIdEnt] := by
  decide

-- ===================== C1 =====================

/-- C1, corrected to non-empty batches.  When a non-empty batch arrives
and either its kept part or the candidate union exceeds the positive file
count limit in force, the scan step marks every newly added entity for
removal, invokes the configured limit hook exactly once with the current
limit as argument, and returns the previous kept collection unchanged. -/
theorem accumulator_rejects_exceeding_batch (limit : Int) (st : AccState)
    (prevAcc curr : List Ent) (hne : curr ≠ [])
    (hex : exceedsFileCountLimit limit (kept st.marked curr) = true
         ∨ exceedsFileCountLimit limit
             (uniqFirst (kept st.marked prevAcc ++ kept st.marked curr)) = true) :
    (concatStep limit true st prevAcc curr).1 = kept st.marked prevAcc
    ∧ (concatStep limit true st prevAcc curr).2.hookArgs = st.hookArgs ++ [limit]
    ∧ ∀ e ∈ newlyAdded (kept st.marked prevAcc) (kept st.marked curr),
        e.ref ∈ (concatStep limit true st prevAcc curr).2.marked := by
  have hc : curr.isEmpty = false := by
    cases curr with
    | nil => exact absurd rfl hne
    | cons a l => rfl
  have hex2 : (exceedsFileCountLimit limit (kept st.marked curr)
      || exceedsFileCountLimit limit
          (uniqFirst (kept st.marked prevAcc ++ kept st.marked curr))) = true := by
    rcases hex with h | h <;> simp [h]
  refine ⟨?_, ?_, ?_⟩
  · simp only [concatStep, hc, Bool.false_eq_true, if_false, hex2, if_true]
  · simp only [concatStep, hc, Bool.false_eq_true, if_false, hex2, if_true]
  · intro e he
    simp only [concatStep, hc, Bool.false_eq_true, if_false, hex2, if_true]
    exact List.mem_append.mpr (Or.inr (List.mem_map.mpr ⟨e, he, rfl⟩))

/-- C1 witness: limit 2, empty previous collection, a fresh batch of
three entities: the collection stays empty, the hook fires once with
argument 2, and all three entities are marked. -/
theorem accumulator_rejects_exceeding_batch_witness :
    batch3 ≠ []
    ∧ exceedsFileCountLimit 2 (kept emptyAccState.marked batch3) = true
    ∧ (concatStep 2 true emptyAccState [] batch3).1 = kept emptyAccState.marked []
    ∧ (concatStep 2 true emptyAccState [] batch3).2.hookArgs = emptyAccState.hookArgs ++ [2] := by
  have h := accumulator_rejects_exceeding_batch 2 emptyAccState [] batch3 (by decide)
    (Or.inl (by decide))
  exact ⟨by decide, by decide, h.1, h.2.1⟩

/-- C1 counterexample: four unmarked entities are accumulated and the
dynamic limit now evaluates to 3.  An empty incoming batch makes the
candidate union (the kept previous collection) exceed the limit, yet the
step resets the collection to empty and never invokes the hook, instead
of returning the previous kept collection and firing the hook once as
the claim states for every batch. -/
theorem accumulator_limit_empty_batch_cex :
    exceedsFileCountLimit 3
      (uniqFirst (kept emptyAccState.marked fourEnts ++ kept emptyAccState.marked ([] : List Ent)))
      = true
    ∧ (concatStep 3 true emptyAccState fourEnts []).1 = []
    ∧ (concatStep 3 true emptyAccState fourEnts []).2.hookArgs = []
    ∧ kept emptyAccState.marked fourEnts ≠ [] := by
  decide

-- ===================== admit path of the scan step =====================

theorem not_exceeds_of_length_le {limit : Int} {l1 l2 : List Ent} (h : l1.length ≤ l2.length)
    (he : exceedsFileCountLimit limit l2 = false) : exceedsFileCountLimit limit l1 = false := by
  cases hx : exceedsFileCountLimit limit l1
  · rfl
  · have h2 := exceeds_of_length_le h hx
    rw [he] at h2
    exact absurd h2 Bool.false_ne_true

theorem uniqFirst_ne_nil [DecidableEq α] {l : List α} (h : l ≠ []) : uniqFirst l ≠ [] := by
  cases l with
  | nil => exact absurd rfl h
  | cons a l => simp [uniqFirst, uniqFirstAux]

theorem concatStep_admits_fst (limit : Int) (hasHook : Bool) (st : AccState)
    (prevAcc curr : List Ent) (hne : curr ≠ [])
    (hk : exceedsFileCountLimit limit (kept st.marked curr) = false)
    (ha : exceedsFileCountLimit limit
      (uniqFirst (kept st.marked prevAcc ++ kept st.marked curr)) = false) :
    (concatStep limit hasHook st prevAcc curr).1
      = uniqFirst (kept st.marked prevAcc ++ kept st.marked curr) := by
  have hc : curr.isEmpty = false := by
    cases curr with
    | nil => exact absurd rfl hne
    | cons a l => rfl
  simp only [concatStep, hc, Bool.false_eq_true, if_false, hk, ha, Bool.or_self, if_false]

theorem concatStep_admits_marked (limit : Int) (hasHook : Bool) (st : AccState)
    (prevAcc curr : List Ent) (hne : curr ≠ [])
    (hk : exceedsFileCountLimit limit (kept st.marked curr) = false)
    (ha : exceedsFileCountLimit limit
      (uniqFirst (kept st.marked prevAcc ++ kept st.marked curr)) = false) :
    (concatStep limit hasHook st prevAcc curr).2.marked = st.marked := by
  have hc : curr.isEmpty = false := by
    cases curr with
    | nil => exact absurd rfl hne
    | cons a l => rfl
  simp only [concatStep, hc, Bool.false_eq_true, if_false, hk, ha, Bool.or_self, if_false]

theorem concatScan_nil (limit : Int) (hasHook : Bool) (acc : List Ent × AccState) :
    concatScan limit hasHook acc [] = acc := by
  obtain ⟨c, s⟩ := acc
  rfl

theorem concatScan_cons (limit : Int) (hasHook : Bool) (acc : List Ent × AccState)
    (b : List Ent) (bs : List (List Ent)) :
    concatScan limit hasHook acc (b :: bs)
      = concatScan limit hasHook (concatStep limit hasHook acc.2 acc.1 b) bs := by
  obtain ⟨c, s⟩ := acc
  rfl

-- ===================== C2 =====================

/-- C2, corrected.  Starting from an empty accumulated collection, for
non-empty batches whose entities have pairwise distinct objects per id,
neither batch nor their de-duplicated union exceeding the limit, feeding
B1 then B2 yields the same collection as feeding the merged batch
de-duplicated by id in one step; and feeding the same batch twice yields
the same collection as feeding it once. -/
theorem accumulator_sequential_eq_merged (limit : Int) (hasHook : Bool) (st : AccState)
    (B1 B2 : List Ent) (h1ne : B1 ≠ []) (h2ne : B2 ≠ [])
    (hinj : ∀ e1 ∈ B1 ++ B2, ∀ e2 ∈ B1 ++ B2, Ent.id e1 = Ent.id e2 → e1 = e2)
    (hx1 : exceedsFileCountLimit limit B1 = false)
    (hx2 : exceedsFileCountLimit limit B2 = false)
    (hxu : exceedsFileCountLimit limit (uniqById (B1 ++ B2)) = false) :
    (concatScan limit hasHook ([], st) [B1, B2]).1
      = (concatScan limit hasHook ([], st) [uniqById (B1 ++ B2)]).1
    ∧ (concatScan limit hasHook ([], st) [B1, B1]).1
      = (concatScan limit hasHook ([], st) [B1]).1 := by
  have hD : uniqById (B1 ++ B2) = uniqFirst (B1 ++ B2) :=
    uniqById_eq_uniqFirst _ fun e1 e2 he1 he2 => hinj e1 he1 e2 he2
  have hknil : kept st.marked ([] : List Ent) = [] := rfl
  have hK1 : exceedsFileCountLimit limit (kept st.marked B1) = false :=
    not_exceeds_of_length_le (length_kept_le _ _) hx1
  have hK2 : exceedsFileCountLimit limit (kept st.marked B2) = false :=
    not_exceeds_of_length_le (length_kept_le _ _) hx2
  have hacc1 : exceedsFileCountLimit limit
      (uniqFirst (kept st.marked [] ++ kept st.marked B1)) = false := by
    rw [hknil, List.nil_append]
    exact not_exceeds_of_length_le (length_uniqFirst_le _) hK1
  have hunion : exceedsFileCountLimit limit
      (uniqFirst (kept st.marked B1 ++ kept st.marked B2)) = false := by
    have h1 : uniqFirst (kept st.marked B1 ++ kept st.marked B2)
        = kept st.marked (uniqFirst (B1 ++ B2)) := by
      rw [← kept_append, ← kept_uniqFirst]
    rw [h1]
    refine not_exceeds_of_length_le (length_kept_le _ _) ?_
    rw [← hD]
    exact hxu
  set s1 := concatStep limit hasHook st [] B1 with hs1def
  have hs1fst : s1.1 = uniqFirst (kept st.marked B1) := by
    have h2 := concatStep_admits_fst limit hasHook st [] B1 h1ne hK1 hacc1
    rwa [hknil, List.nil_append] at h2
  have hs1mk : s1.2.marked = st.marked :=
    concatStep_admits_marked limit hasHook st [] B1 h1ne hK1 hacc1
  have hker : kept s1.2.marked s1.1 = uniqFirst (kept st.marked B1) := by
    rw [hs1mk, hs1fst, kept_uniqFirst, kept_kept]
  constructor
  · have e1 : (concatScan limit hasHook ([], st) [B1, B2]).1
        = (concatStep limit hasHook s1.2 s1.1 B2).1 := by
      rw [concatScan_cons, concatScan_cons, concatScan_nil]
    have hkB2 : kept s1.2.marked B2 = kept st.marked B2 := by rw [hs1mk]
    have hs2 : (concatStep limit hasHook s1.2 s1.1 B2).1
        = uniqFirst (kept st.marked B1 ++ kept st.marked B2) := by
      rw [concatStep_admits_fst limit hasHook s1.2 s1.1 B2 h2ne
          (by rw [hkB2]; exact hK2)
          (by rw [hker, hkB2, uniqFirst_append_left]; exact hunion),
        hker, hkB2, uniqFirst_append_left]
    have hDne : uniqById (B1 ++ B2) ≠ [] := by
      rw [hD]
      refine uniqFirst_ne_nil ?_
      cases B1 with
      | nil => exact absurd rfl h1ne
      | cons a l => simp
    have hkD : kept st.marked (uniqById (B1 ++ B2))
        = uniqFirst (kept st.marked B1 ++ kept st.marked B2) := by
      rw [hD, kept_uniqFirst, kept_append]
    have hmerged : (concatScan limit hasHook ([], st) [uniqById (B1 ++ B2)]).1
        = uniqFirst (kept st.marked B1 ++ kept st.marked B2) := by
      have e2 : (concatScan limit hasHook ([], st) [uniqById (B1 ++ B2)]).1
          = (concatStep limit hasHook st [] (uniqById (B1 ++ B2))).1 := by
        rw [concatScan_cons, concatScan_nil]
      rw [e2, concatStep_admits_fst limit hasHook st [] _ hDne
          (by rw [hkD]; exact hunion)
          (by rw [hknil, List.nil_append, hkD, uniqFirst_idem]; exact hunion),
        hknil, List.nil_append, hkD, uniqFirst_idem]
    rw [e1, hs2, hmerged]
  · have e3 : (concatScan limit hasHook ([], st) [B1, B1]).1
        = (concatStep limit hasHook s1.2 s1.1 B1).1 := by
      rw [concatScan_cons, concatScan_cons, concatScan_nil]
    have hkB1 : kept s1.2.marked B1 = kept st.marked B1 := by rw [hs1mk]
    have haccB : uniqFirst (uniqFirst (kept st.marked B1) ++ kept st.marked B1)
        = uniqFirst (kept st.marked B1) := by
      rw [uniqFirst_append_left, uniqFirst_self_append]
    have e4 : (concatScan limit hasHook ([], st) [B1]).1 = s1.1 := by
      rw [concatScan_cons, concatScan_nil]
    rw [e3, concatStep_admits_fst limit hasHook s1.2 s1.1 B1 h1ne
        (by rw [hkB1]; exact hK1)
        (by rw [hker, hkB1, haccB]
            exact not_exceeds_of_length_le (length_uniqFirst_le _) hK1),
      hker, hkB1, haccB, e4, hs1fst]

/-- C2 witness: limit 3, batches of two and one fresh entities with
distinct ids: the two step run and the merged one step run agree. -/
theorem accumulator_sequential_eq_merged_witness :
    batch1 ≠ [] ∧ batch2 ≠ []
    ∧ exceedsFileCountLimit 3 batch1 = false
    ∧ exceedsFileCountLimit 3 batch2 = false
    ∧ exceedsFileCountLimit 3 (uniqById (batch1 ++ batch2)) = false
    ∧ (concatScan 3 false ([], emptyAccState) [batch1, batch2]).1
        = (concatScan 3 false ([], emptyAccState) [uniqById (batch1 ++ batch2)]).1 := by
  refine ⟨by decide, by decide, by decide, by decide, by decide, ?_⟩
  refine (accumulator_sequential_eq_merged 3 false emptyAccState batch1 batch2
    (by decide) (by decide) ?_ (by decide) (by decide) (by decide)).1
  intro e1 h1 e2 h2
  fin_cases h1 <;> fin_cases h2 <;> decide

/-- C2 counterexample: with two entities already accumulated and limit 3,
batches B1 of two and B2 of one fresh entities satisfy every hypothesis
of the claim (non-empty, and neither batch nor their de-duplicated union
exceeds the limit), yet feeding B1 then B2 yields a different collection
than feeding the merged de-duplicated batch: the two step run admits B2
after B1 was rolled back, while the merged run rejects everything. -/
theorem accumulator_sequential_merged_cex :
    batch1 ≠ [] ∧ batch2 ≠ []
    ∧ exceedsFileCountLimit 3 batch1 = false
    ∧ exceedsFileCountLimit 3 batch2 = false
    ∧ exceedsFileCountLimit 3 (uniqById (batch1 ++ batch2)) = false
    ∧ (concatScan 3 false ([], emptyAccState) [batch0, batch1, batch2]).1
        ≠ (concatScan 3 false ([], emptyAccState) [batch0, uniqById (batch1 ++ batch2)]).1 := by
  decide

-- ===================== screening lemmas =====================

theorem screenFiles_loop (cfg : PolicyConfig) :
    ∀ (files : List RawFile) (acc : List RawFile × List UploadErrorKind),
      files.foldl
        (fun acc f =>
          if underSizeLimit cfg f then
            if typeAllowed cfg f then (acc.1 ++ [f], acc.2)
            else (acc.1, acc.2 ++ [UploadErrorKind.disallowedContentType])
          else (acc.1, acc.2 ++ [UploadErrorKind.fileSizeLimitExceeded])) acc
      = (acc.1 ++ files.filter (screenOk cfg), acc.2 ++ files.filterMap (errOf cfg)) := by
  intro files
  induction files with
  | nil => intro acc; simp
  | cons f fs ih =>
    intro acc
    by_cases h1 : underSizeLimit cfg f
    · by_cases h2 : typeAllowed cfg f
      · simp only [List.foldl_cons, h1, h2, if_true, ih, List.filter_cons,
          List.filterMap_cons, screenOk, errOf, Bool.and_self, List.append_assoc]
        simp [screenOk, errOf, h1, h2]
      · simp only [List.foldl_cons, h1, h2, if_true, if_false, ih, List.filter_cons,
          List.filterMap_cons, List.append_assoc]
        simp [screenOk, errOf, h1, h2]
    · simp only [List.foldl_cons, h1, if_false, ih, List.filter_cons,
        List.filterMap_cons, List.append_assoc]
      simp [screenOk, errOf, h1]

theorem screenFiles_eq (cfg : PolicyConfig) (files : List RawFile) :
    screenFiles cfg files
      = (files.filter (screenOk cfg), files.filterMap (errOf cfg)) := by
  rw [screenFiles, screenFiles_loop]
  simp

-- ===================== C4 =====================

/-- C4, confirmed.  The screening applied to every raw file checks the
size first: a configured nonzero size limit met or exceeded yields
exactly one size limit error regardless of the content type; only then
is the content type checked: no wildcard and no matching entry yields
exactly one content type error; a file failing either check never occurs
among the admitted files; and screening a concatenation screens both
parts independently, so the remaining files of a batch are still
processed (the screening is total and never throws). -/
theorem policy_filter_order_and_continuation (cfg : PolicyConfig) (f : RawFile)
    (files fs1 fs2 : List RawFile) :
    (∀ l, cfg.fileSizeLimitMb = some l → l ≠ 0 → l * BYTES_PER_MB ≤ f.size →
        screenFiles cfg [f] = ([], [UploadErrorKind.fileSizeLimitExceeded]))
    ∧ (underSizeLimit cfg f = true → "*" ∉ cfg.allowedContentTypes →
        f.mimeType ∉ cfg.allowedContentTypes →
        screenFiles cfg [f] = ([], [UploadErrorKind.disallowedContentType]))
    ∧ (¬ (underSizeLimit cfg f = true ∧ typeAllowed cfg f = true) →
        f ∉ (screenFiles cfg files).1)
    ∧ screenFiles cfg (fs1 ++ fs2)
        = ((screenFiles cfg fs1).1 ++ (screenFiles cfg fs2).1,
           (screenFiles cfg fs1).2 ++ (screenFiles cfg fs2).2) := by
  refine ⟨?_, ?_, ?_, ?_⟩
  · intro l hl hne hsz
    have hu : underSizeLimit cfg f = false := by
      rw [underSizeLimit, hl]
      simp only [Bool.or_eq_false_iff, beq_eq_false_iff_ne, ne_eq,
        decide_eq_false_iff_not, not_lt]
      exact ⟨hne, hsz⟩
    simp [screenFiles, hu]
  · intro hu hw hm
    have ht : typeAllowed cfg f = false := by
      rw [typeAllowed]
      simp only [Bool.or_eq_false_iff, List.any_eq_false, beq_iff_eq]
      constructor
      · intro ct hct heq
        exact hw (heq ▸ hct)
      · intro ct hct heq
        exact hm (heq ▸ hct)
    simp [screenFiles, hu, ht]
  · intro hbad hmem
    rw [screenFiles_eq] at hmem
    have hok := List.of_mem_filter hmem
    rw [screenOk, Bool.and_eq_true] at hok
    exact hbad hok
  · rw [screenFiles_eq, screenFiles_eq, screenFiles_eq, List.filter_append,
      List.filterMap_append]

/-- C4 witness: with a 1 MB size limit and only text allowed, a 2 MB file
of a disallowed type is rejected with a size error alone, and a small
file of a disallowed type with a content type error alone. -/
theorem policy_filter_order_and_continuation_witness :
    screenFiles { fileSizeLimitMb := some 1, allowedContentTypes := ["text/plain"] }
        [{ name := "big.bin", size := 2000000, mimeType := "application/x" }]
      = ([], [UploadErrorKind.fileSizeLimitExceeded])
    ∧ screenFiles { fileSizeLimitMb := some 1, allowedContentTypes := ["text/plain"] }
        [{ name := "a.bin", size := 10, mimeType := "application/x" }]
      = ([], [UploadErrorKind.disallowedContentType]) := by
  constructor
  · exact (policy_filter_order_and_continuation
      { fileSizeLimitMb := some 1, allowedContentTypes := ["text/plain"] }
      { name := "big.bin", size := 2000000, mimeType := "application/x" }
      [] [] []).1 1 rfl (by decide) (by decide)
  · exact (policy_filter_order_and_continuation
      { fileSizeLimitMb := some 1, allowedContentTypes := ["text/plain"] }
      { name := "a.bin", size := 10, mimeType := "application/x" }
      [] [] []).2.1 (by decide) (by decide) (by decide)

-- ===================== formData merge lemmas =====================

theorem pick_none_right (o : Option α) : pick o none = o := by
  cases o <;> rfl

theorem fdLookup_eq_none_of_no_key :
    ∀ (l : List (String × String)) (k : String), (∀ q ∈ l, q.1 ≠ k) → fdLookup l k = none := by
  intro l
  induction l with
  | nil => intro k _; rfl
  | cons p rest ih =>
    intro k h
    rw [fdLookup, if_neg ?hne]
    case hne =>
      simp only [beq_iff_eq]
      exact h p (List.mem_cons_self p rest)
    exact ih k fun q hq => h q (List.mem_cons_of_mem p hq)

theorem fdLookup_isSome_of_key :
    ∀ (l : List (String × String)) (k : String), (∃ q ∈ l, q.1 = k) →
      ∃ v, fdLookup l k = some v := by
  intro l
  induction l with
  | nil =>
    intro k h
    obtain ⟨q, hq, _⟩ := h
    exact absurd hq (List.not_mem_nil q)
  | cons p rest ih =>
    intro k h
    by_cases hk : p.1 == k
    · exact ⟨p.2, by rw [fdLookup, if_pos hk]⟩
    · obtain ⟨q, hq, hqk⟩ := h
      rcases List.mem_cons.mp hq with rfl | hq
      · exact absurd (beq_iff_eq.mpr hqk) hk
      · obtain ⟨v, hv⟩ := ih k ⟨q, hq, hqk⟩
        exact ⟨v, by rw [fdLookup, if_neg hk, hv]⟩

theorem fdLookup_mergeFormData :
    ∀ (base ovr : List (String × String)) (k : String),
      fdLookup (mergeFormData base ovr) k = pick (fdLookup ovr k) (fdLookup base k) := by
  intro base
  induction base with
  | nil =>
    intro ovr k
    rw [mergeFormData]
    simp [pick_none_right, fdLookup]
  | cons p rest ih =>
    intro ovr k
    by_cases hp : ovr.any (fun q => q.1 == p.1)
    · have hmerge : mergeFormData (p :: rest) ovr = mergeFormData rest ovr := by
        rw [mergeFormData, mergeFormData, List.filter_cons]
        simp [hp]
      rw [hmerge, ih, fdLookup]
      by_cases hk : p.1 == k
      · have hkey : ∃ q ∈ ovr, q.1 = k := by
          rw [List.any_eq_true] at hp
          obtain ⟨q, hq, hq2⟩ := hp
          rw [beq_iff_eq] at hq2 hk
          exact ⟨q, hq, hq2.trans hk⟩
        obtain ⟨v, hv⟩ := fdLookup_isSome_of_key ovr k hkey
        rw [if_pos hk, hv]
        rfl
      · rw [if_neg hk]
    · have hmerge : mergeFormData (p :: rest) ovr = p :: mergeFormData rest ovr := by
        rw [mergeFormData, mergeFormData, List.filter_cons]
        simp [hp]
      rw [hmerge, fdLookup, fdLookup]
      by_cases hk : p.1 == k
      · have hnone : fdLookup ovr k = none := by
          refine fdLookup_eq_none_of_no_key ovr k fun q hq heq => ?_
          rw [beq_iff_eq] at hk
          exact hp (List.any_eq_true.mpr ⟨q, hq, beq_iff_eq.mpr (heq.trans hk.symm)⟩)
        rw [if_pos hk, if_pos hk, hnone]
        rfl
      · rw [if_neg hk, if_neg hk, ih]

-- ===================== C7 =====================

/-- C7, confirmed.  The options literal built from the factory result and
the session level options gives the session level value of every present
top level key precedence, and merges the two formData field maps key by
key with session fields winning, instead of replacing one map by the
other; and setRequestOptions merges per top level key into the existing
options, so merging the empty options object changes nothing. -/
theorem requestOptions_merge_semantics (fac ses opts : RequestOptions)
    (f : FileUpload) (k : String) :
    (resolvedFactoryRequestOptions fac ses).url = pick ses.url fac.url
    ∧ (resolvedFactoryRequestOptions fac ses).method = pick ses.method fac.method
    ∧ (resolvedFactoryRequestOptions fac ses).headers = pick ses.headers fac.headers
    ∧ fdLookup ((resolvedFactoryRequestOptions fac ses).formData.getD []) k
        = pick (fdLookup (ses.formData.getD []) k) (fdLookup (fac.formData.getD []) k)
    ∧ (f.setRequestOptions opts).requestOptions.url = pick opts.url f.requestOptions.url
    ∧ (f.setRequestOptions opts).requestOptions.method = pick opts.method f.requestOptions.method
    ∧ (f.setRequestOptions opts).requestOptions.formData
        = pick opts.formData f.requestOptions.formData
    ∧ (f.setRequestOptions opts).requestOptions.headers = pick opts.headers f.requestOptions.headers
    ∧ (f.setRequestOptions
        { url := none, method := none, formData := none, headers := none }).requestOptions
        = f.requestOptions := by
  refine ⟨rfl, rfl, rfl, ?_, rfl, rfl, rfl, rfl, rfl⟩
  exact fdLookup_mergeFormData (fac.formData.getD []) (ses.formData.getD []) k
